import Mathlib

/-!
# Verification of the background-task scheduler

This file formalises the asyncio-based background task scheduler published in
the repository (the `run_background_task` / `wait_for_task` module): a bounded
concurrency limiter (`asyncio.Semaphore` with capacity `MAX_BACKGROUND_TASKS`),
a process-wide registry `_ACTIVE_TASKS : Set[asyncio.Task]`, a guarded runner
`_run_behind_semaphore`, a completion reporter `_raise_aware_task_callback`,
and the wait entry point `wait_for_task`.

Two models are developed, both shallow embeddings of the Python source
together with the documented semantics of the asyncio primitives it uses:

* an event-loop model (`SchedState`, `Step`, `Reachable`): a small-step
  operational semantics of the single-threaded cooperative event loop running
  the scheduler.  `asyncio.create_task` enqueues the new task's coroutine on
  the loop's FIFO ready queue, so the synchronous head of
  `_run_behind_semaphore` (everything up to the semaphore acquisition, which
  is its first suspension point) runs in creation order; this is modelled by
  the FIFO `created` queue.  `asyncio.Semaphore` (Python >= 3.12 semantics)
  admits a caller immediately only when a permit is free and no earlier
  waiter is queued, and wakes waiters in FIFO order.  `add_done_callback`
  handlers run exactly once, in registration order, when the task reaches a
  terminal state; they are modelled as running at the completion transition.

* a timed functional model of `wait_for_task` (`wait_for_task` below) over a
  snapshot of the registry, where `asyncio.wait_for` follows its documented
  behaviour: it waits until the awaited task completes or the timeout
  elapses; on timeout it cancels the task and raises `TimeoutError`;
  if the task completes first, its outcome is propagated to the awaiter
  (its exception or `CancelledError` is re-raised there).
-/

/-- Terminal outcome of a task body: normal return, an exception carrying a
message, or cancellation (`asyncio.CancelledError`, which inherits from
`BaseException`, not `Exception`). -/
inductive Outcome where
  | ok : Outcome
  | err : String → Outcome
  | cancelled : Outcome
deriving DecidableEq, Repr

/-- An `asyncio.Task` as tracked by the module: Python tasks hash by object
identity, modelled by a numeric `id` (identities are assigned in creation
order by the model), and carry the name passed to `asyncio.create_task`. -/
structure TrackedTask where
  id : Nat
  name : String
deriving DecidableEq, Repr

/-- The capacity constant of the source: `MAX_BACKGROUND_TASKS = 1`. -/
def MAX_BACKGROUND_TASKS : Nat := 1

/-- `_raise_aware_task_callback`: calls `task.result()`; a normal return is
ignored, and any `BaseException` — including `asyncio.CancelledError` — is
caught and reported as a warning through the logger (name and outcome).  It
is a total function: no outcome escapes it. -/
def raise_aware_task_callback (t : TrackedTask) (o : Outcome)
    (warnings : List (String × Outcome)) : List (String × Outcome) :=
  match o with
  | Outcome.ok => warnings
  | o => warnings ++ [(t.name, o)]

/-- `_ACTIVE_TASKS.discard task`: removes exactly the completed task object
(identity-keyed) from the registry; all other tasks, including other tasks
with the same name, are untouched. -/
def discardTask (t : TrackedTask) (active : List TrackedTask) : List TrackedTask :=
  active.filter (fun u => u.id != t.id)

/-- The lookup `wait_for_task` performs on its snapshot of `_ACTIVE_TASKS`:
all tracked tasks whose `get_name()` equals the requested name. -/
def find_by_name (name : String) (tasks : List TrackedTask) : List TrackedTask :=
  tasks.filter (fun t => t.name == name)

/-- State of the cooperative event loop running the scheduler. -/
structure SchedState where
  /-- next fresh task identity -/
  nextId : Nat
  /-- FIFO ready queue of tasks created by `asyncio.create_task` whose
  coroutine (`_run_behind_semaphore`) has not yet started running; the loop
  starts them in creation order -/
  created : List TrackedTask
  /-- free permits of the shared `asyncio.Semaphore` -/
  semValue : Nat
  /-- FIFO queue of task bodies suspended in `Semaphore.acquire` -/
  semWaiters : List TrackedTask
  /-- task bodies past the gate: holding a permit, executing `await coroutine` -/
  running : List TrackedTask
  /-- the registry `_ACTIVE_TASKS` -/
  active : List TrackedTask
  /-- history: bodies in the order they reached the semaphore acquisition -/
  arrived : List TrackedTask
  /-- history: bodies in the order they were admitted past the gate -/
  admitted : List TrackedTask
  /-- history: terminal outcomes, in completion order -/
  finished : List (TrackedTask × Outcome)
  /-- warnings emitted by `_raise_aware_task_callback` -/
  warnings : List (String × Outcome)
deriving DecidableEq, Repr

/-- The loop state before any submission, with the semaphore lazily created
by `get_tasks_semaphore` at capacity `K`. -/
def initState (K : Nat) : SchedState :=
  { nextId := 0, created := [], semValue := K, semWaiters := [], running := [],
    active := [], arrived := [], admitted := [], finished := [], warnings := [] }

/-- `run_background_task(coroutine, task_name)`: creates the task via
`asyncio.create_task` (scheduling `_run_behind_semaphore` on the FIFO ready
queue and assigning a fresh identity), adds it to `_ACTIVE_TASKS`, and
registers the two done callbacks (`_ACTIVE_TASKS.discard` first, then
`_raise_aware_task_callback`) which fire at the completion transitions
below.  It returns to its caller without suspending and without error. -/
def run_background_task (name : String) (s : SchedState) : SchedState :=
  let t : TrackedTask := { id := s.nextId, name := name }
  { s with nextId := s.nextId + 1,
           active := s.active ++ [t],
           created := s.created ++ [t] }

/-- `Semaphore.acquire` as reached by a task body (Python >= 3.12 fairness:
`locked()` is true when no permit is free *or* earlier waiters are queued,
so a newcomer never overtakes the FIFO waiter queue). -/
def acquireGate (t : TrackedTask) (s : SchedState) : SchedState :=
  if 0 < s.semValue ∧ s.semWaiters = [] then
    { s with semValue := s.semValue - 1,
             running := s.running ++ [t],
             admitted := s.admitted ++ [t] }
  else
    { s with semWaiters := s.semWaiters ++ [t] }

/-- The event loop starts the oldest created task: the body of
`_run_behind_semaphore` runs its synchronous head and reaches the semaphore
acquisition (`async with get_tasks_semaphore()`), its first suspension
point. -/
def startCreated (t : TrackedTask) (rest : List TrackedTask) (s : SchedState) : SchedState :=
  acquireGate t { s with created := rest, arrived := s.arrived ++ [t] }

/-- `Semaphore.release`, run by the scoped `async with` on every exit path of
`_run_behind_semaphore`: hands the permit to the first FIFO waiter if any,
otherwise returns it to the pool. -/
def releaseGate (s : SchedState) : SchedState :=
  match s.semWaiters with
  | [] => { s with semValue := s.semValue + 1 }
  | w :: ws => { s with semWaiters := ws,
                        running := s.running ++ [w],
                        admitted := s.admitted ++ [w] }

/-- The two done callbacks of a terminal task, in registration order:
`_ACTIVE_TASKS.discard` removes the task from the registry, then
`_raise_aware_task_callback` inspects the outcome and logs a warning for any
`BaseException` (exception or cancellation). -/
def runDoneCallbacks (t : TrackedTask) (o : Outcome) (s : SchedState) : SchedState :=
  let s1 := { s with active := discardTask t s.active }
  { s1 with warnings := raise_aware_task_callback t o s1.warnings }

/-- A running body reaches a terminal state with outcome `o` (normal return,
an exception propagating out of `await coroutine`, or a `CancelledError`
thrown into it): the `async with` block releases the permit on this exit
path, the task becomes terminal, and its done callbacks run. -/
def finishRunning (t : TrackedTask) (o : Outcome) (s : SchedState) : SchedState :=
  runDoneCallbacks t o
    (releaseGate
      { s with running := s.running.filter (fun u => u.id != t.id),
               finished := s.finished ++ [(t, o)] })

/-- A body cancelled while suspended in `Semaphore.acquire`: it leaves the
waiter queue without ever holding a permit (the `async with` body was never
entered, so nothing is released), becomes terminal with `cancelled`, and its
done callbacks run. -/
def cancelAtGate (t : TrackedTask) (s : SchedState) : SchedState :=
  runDoneCallbacks t Outcome.cancelled
    { s with semWaiters := s.semWaiters.filter (fun u => u.id != t.id),
             finished := s.finished ++ [(t, Outcome.cancelled)] }

/-- One transition of the event loop running the scheduler.  Completion
outcomes and cancellations are chosen nondeterministically, so every
interleaving the real loop can produce is covered. -/
inductive Step : SchedState → SchedState → Prop where
  | submit (name : String) (s : SchedState) :
      Step s (run_background_task name s)
  | start (s : SchedState) (t : TrackedTask) (rest : List TrackedTask)
      (h : s.created = t :: rest) :
      Step s (startCreated t rest s)
  | finish (s : SchedState) (t : TrackedTask) (o : Outcome)
      (h : t ∈ s.running) :
      Step s (finishRunning t o s)
  | cancelWaiting (s : SchedState) (t : TrackedTask)
      (h : t ∈ s.semWaiters) :
      Step s (cancelAtGate t s)

/-- States reachable by the loop from the fresh scheduler at capacity `K`. -/
inductive Reachable (K : Nat) : SchedState → Prop where
  | init : Reachable K (initState K)
  | step {s s' : SchedState} : Reachable K s → Step s s' → Reachable K s'

/-! ## Timed model of `wait_for_task` -/

/-- What `wait_for_task` can raise to its caller. -/
inductive WaitError where
  | timeout : WaitError
  | taskErr : String → WaitError
  | taskCancelled : WaitError
deriving DecidableEq, Repr

/-- A matched task as seen by the waiter: the underlying task either reaches
a terminal state with `result` at absolute time `doneAt`, or (if `doneAt` is
`none`) is still not terminal at any time the wait can observe. -/
structure TaskView where
  task : TrackedTask
  doneAt : Option Nat
  result : Outcome
deriving DecidableEq, Repr

/-- `asyncio.wait_for(task, timeout)` awaited at absolute time `now`, per its
documented semantics: if the task reaches its terminal state within the
timeout, the awaiter resumes then and the task's outcome is propagated (its
exception, or `CancelledError` if it was cancelled, is re-raised in the
awaiter); if the timeout elapses first, `wait_for` cancels the task and
raises `TimeoutError`.  Returns the new clock, the outcome for the awaiter,
and the tasks cancelled by this wait. -/
def asyncio_wait_for (now timeout : Nat) (v : TaskView) :
    Nat × Except WaitError Unit × List TrackedTask :=
  match v.doneAt with
  | some d =>
    if d ≤ now + timeout then
      (max now d,
       (match v.result with
        | Outcome.ok => Except.ok ()
        | Outcome.err m => Except.error (WaitError.taskErr m)
        | Outcome.cancelled => Except.error WaitError.taskCancelled),
       [])
    else (now + timeout, Except.error WaitError.timeout, [v.task])
  | none => (now + timeout, Except.error WaitError.timeout, [v.task])

/-- `wait_for_task(task_name, seconds)`: iterates over a snapshot
(`_ACTIVE_TASKS.copy()`); for each task whose name matches it awaits
`asyncio.wait_for(task, timeout=seconds)` — so each matched task gets a
fresh `seconds` budget starting when its own wait begins, and the first
error raised by a wait propagates out of the loop to the caller. -/
def wait_for_task (name : String) (seconds : Nat) (snapshot : List TaskView)
    (now : Nat) : Nat × Except WaitError Unit × List TrackedTask :=
  match snapshot with
  | [] => (now, Except.ok (), [])
  | v :: vs =>
    if v.task.name = name then
      let r := asyncio_wait_for now seconds v
      match r.2.1 with
      | Except.ok _ =>
        let rest := wait_for_task name seconds vs r.1
        (rest.1, rest.2.1, r.2.2 ++ rest.2.2)
      | Except.error e => (r.1, Except.error e, r.2.2)
    else wait_for_task name seconds vs now

/-! ## Invariants of the event loop -/

/-- Task `t` was created strictly before `u`. -/
def idLt (t u : TrackedTask) : Prop := t.id < u.id

/-- Tasks `t` and `u` are distinct objects. -/
def idNe (t u : TrackedTask) : Prop := t.id ≠ u.id

/-- Tasks whose bodies have not yet reached a terminal state. -/
def liveTasks (s : SchedState) : List TrackedTask :=
  s.created ++ s.semWaiters ++ s.running

lemma pairwise_append_one {α : Type} {R : α → α → Prop}
    {l : List α} {a : α}
    (hl : l.Pairwise R) (h : ∀ x ∈ l, R x a) : (l ++ [a]).Pairwise R := by
  rw [List.pairwise_append]
  refine ⟨hl, List.pairwise_singleton _ _, ?_⟩
  intro x hx b hb
  rw [List.mem_singleton] at hb
  subst hb
  exact h x hx

lemma mem_of_mem_filter_ne {t u : TrackedTask} {l : List TrackedTask}
    (hu : u ∈ l.filter (fun x => x.id != t.id)) : u ∈ l ∧ u.id ≠ t.id := by
  rw [List.mem_filter, bne_iff_ne] at hu
  exact hu

lemma mem_filter_ne {t u : TrackedTask} {l : List TrackedTask}
    (hu : u ∈ l) (hne : u.id ≠ t.id) : u ∈ l.filter (fun x => x.id != t.id) := by
  rw [List.mem_filter, bne_iff_ne]
  exact ⟨hu, hne⟩

lemma filter_ne_eq_self {t : TrackedTask} {l : List TrackedTask}
    (h : ∀ u ∈ l, u.id ≠ t.id) : l.filter (fun x => x.id != t.id) = l := by
  rw [List.filter_eq_self]
  intro u hu
  rw [bne_iff_ne]
  exact h u hu

lemma length_filter_ne {t : TrackedTask} {l : List TrackedTask}
    (hnd : l.Pairwise idNe) (ht : t ∈ l) :
    (l.filter (fun x => x.id != t.id)).length + 1 = l.length := by
  induction l with
  | nil => cases ht
  | cons a l ih =>
    rw [List.pairwise_cons] at hnd
    by_cases hat : a.id = t.id
    · have hrest : ∀ u ∈ l, u.id ≠ t.id := by
        intro u hu hc
        exact hnd.1 u hu (by rw [hat, hc])
      have : (a :: l).filter (fun x => x.id != t.id) = l.filter (fun x => x.id != t.id) := by
        rw [List.filter_cons]
        simp [bne_iff_ne, hat]
      rw [this, filter_ne_eq_self hrest]
      simp
    · have htl : t ∈ l := by
        rcases List.mem_cons.mp ht with h | h
        · exact absurd (by rw [h]) hat
        · exact h
      have : (a :: l).filter (fun x => x.id != t.id)
          = a :: l.filter (fun x => x.id != t.id) := by
        rw [List.filter_cons]
        simp [bne_iff_ne, hat]
      rw [this]
      simp only [List.length_cons]
      rw [← ih hnd.2 htl]

/-- Inductive invariant of the event loop at capacity `K`. -/
structure Good (K : Nat) (s : SchedState) : Prop where
  permits : s.semValue + s.running.length = K
  zeroWait : s.semWaiters ≠ [] → s.semValue = 0
  creLt : ∀ t ∈ s.created, t.id < s.nextId
  arrLt : ∀ t ∈ s.arrived, t.id < s.nextId
  actLt : ∀ t ∈ s.active, t.id < s.nextId
  finLt : ∀ p ∈ s.finished, p.1.id < s.nextId
  sortedCre : s.created.Pairwise idLt
  sortedArr : s.arrived.Pairwise idLt
  sortedAdm : s.admitted.Pairwise idLt
  sortedWait : s.semWaiters.Pairwise idLt
  arrCre : ∀ a ∈ s.arrived, ∀ c ∈ s.created, a.id < c.id
  admWait : ∀ a ∈ s.admitted, ∀ w ∈ s.semWaiters, a.id < w.id
  waitArr : ∀ w ∈ s.semWaiters, w ∈ s.arrived
  admArr : ∀ a ∈ s.admitted, a ∈ s.arrived
  runAdm : s.running.Sublist s.admitted
  finAct : ∀ p ∈ s.finished, ∀ a ∈ s.active, a.id ≠ p.1.id
  finNodup : s.finished.Pairwise (fun p q => p.1.id ≠ q.1.id)
  liveFin : ∀ t ∈ liveTasks s, ∀ p ∈ s.finished, t.id ≠ p.1.id

lemma Good.runArr {K : Nat} {s : SchedState} (g : Good K s) :
    ∀ t ∈ s.running, t ∈ s.arrived :=
  fun t ht => g.admArr t (g.runAdm.subset ht)

lemma Good.runNe {K : Nat} {s : SchedState} (g : Good K s) :
    s.running.Pairwise idNe :=
  (g.sortedAdm.sublist g.runAdm).imp (fun h => Nat.ne_of_lt h)

lemma good_init (K : Nat) : Good K (initState K) := by
  refine ⟨?_, ?_, ?_, ?_, ?_, ?_, ?_, ?_, ?_, ?_, ?_, ?_, ?_, ?_, ?_, ?_, ?_, ?_⟩ <;>
    simp [initState, liveTasks]

lemma good_submit {K : Nat} {s : SchedState} (g : Good K s) (name : String) :
    Good K (run_background_task name s) := by
  set t : TrackedTask := { id := s.nextId, name := name } with ht
  have hidt : t.id = s.nextId := rfl
  refine ⟨?_, ?_, ?_, ?_, ?_, ?_, ?_, ?_, ?_, ?_, ?_, ?_, ?_, ?_, ?_, ?_, ?_, ?_⟩
  · exact g.permits
  · exact g.zeroWait
  · intro u hu
    simp only [run_background_task, List.mem_append, List.mem_singleton] at hu
    rcases hu with hu | hu
    · exact Nat.lt_trans (g.creLt u hu) (Nat.lt_succ_self _)
    · subst hu
      exact Nat.lt_succ_self _
  · intro u hu
    exact Nat.lt_trans (g.arrLt u hu) (Nat.lt_succ_self _)
  · intro u hu
    simp only [run_background_task, List.mem_append, List.mem_singleton] at hu
    rcases hu with hu | hu
    · exact Nat.lt_trans (g.actLt u hu) (Nat.lt_succ_self _)
    · subst hu
      exact Nat.lt_succ_self _
  · intro p hp
    exact Nat.lt_trans (g.finLt p hp) (Nat.lt_succ_self _)
  · exact pairwise_append_one g.sortedCre (fun x hx => g.creLt x hx)
  · exact g.sortedArr
  · exact g.sortedAdm
  · exact g.sortedWait
  · intro a ha c hc
    simp only [run_background_task, List.mem_append, List.mem_singleton] at hc
    rcases hc with hc | hc
    · exact g.arrCre a ha c hc
    · subst hc
      exact g.arrLt a ha
  · exact g.admWait
  · exact g.waitArr
  · exact g.admArr
  · exact g.runAdm
  · intro p hp a ha
    simp only [run_background_task, List.mem_append, List.mem_singleton] at ha
    rcases ha with ha | ha
    · exact g.finAct p hp a ha
    · subst ha
      exact Nat.ne_of_gt (g.finLt p hp)
  · exact g.finNodup
  · intro u hu p hp
    simp only [run_background_task, liveTasks, List.mem_append, List.mem_singleton] at hu
    rcases hu with ((hu | hu) | hu) | hu
    · exact g.liveFin u (by simp [liveTasks, hu]) p hp
    · subst hu
      exact Nat.ne_of_gt (g.finLt p hp)
    · exact g.liveFin u (by simp [liveTasks, hu]) p hp
    · exact g.liveFin u (by simp [liveTasks, hu]) p hp

lemma good_start {K : Nat} {s : SchedState} (g : Good K s) {t : TrackedTask}
    {rest : List TrackedTask} (h : s.created = t :: rest) :
    Good K (startCreated t rest s) := by
  have htc : t ∈ s.created := by
    rw [h]
    exact List.mem_cons_self _ _
  have hpcre := g.sortedCre
  rw [h, List.pairwise_cons] at hpcre
  have htrest : ∀ c ∈ rest, t.id < c.id := fun c hc => hpcre.1 c hc
  have sortedRest : rest.Pairwise idLt := hpcre.2
  have hrestsub : ∀ c ∈ rest, c ∈ s.created := by
    intro c hc
    rw [h]
    exact List.mem_cons_of_mem _ hc
  have harrT : ∀ a ∈ s.arrived, a.id < t.id := fun a ha => g.arrCre a ha t htc
  have hwaitT : ∀ w ∈ s.semWaiters, w.id < t.id := fun w hw => harrT w (g.waitArr w hw)
  have hadmT : ∀ a ∈ s.admitted, a.id < t.id := fun a ha => harrT a (g.admArr a ha)
  have htLt : t.id < s.nextId := g.creLt t htc
  simp only [startCreated, acquireGate]
  split_ifs with hcond
  · refine ⟨?_, ?_, ?_, ?_, ?_, ?_, ?_, ?_, ?_, ?_, ?_, ?_, ?_, ?_, ?_, ?_, ?_, ?_⟩
    · simp only [List.length_append, List.length_singleton]
      have := g.permits
      omega
    · intro hne
      exact absurd hcond.2 hne
    · exact fun u hu => g.creLt u (hrestsub u hu)
    · intro u hu
      rcases List.mem_append.mp hu with hu | hu
      · exact g.arrLt u hu
      · rw [List.mem_singleton] at hu
        subst hu
        exact htLt
    · exact g.actLt
    · exact g.finLt
    · exact sortedRest
    · exact pairwise_append_one g.sortedArr harrT
    · exact pairwise_append_one g.sortedAdm hadmT
    · exact g.sortedWait
    · intro a ha c hc
      rcases List.mem_append.mp ha with ha | ha
      · exact g.arrCre a ha c (hrestsub c hc)
      · rw [List.mem_singleton] at ha
        subst ha
        exact htrest c hc
    · intro a _ w hw
      rw [hcond.2] at hw
      cases hw
    · intro w hw
      rw [hcond.2] at hw
      cases hw
    · intro a ha
      rcases List.mem_append.mp ha with ha | ha
      · exact List.mem_append.mpr (Or.inl (g.admArr a ha))
      · exact List.mem_append.mpr (Or.inr ha)
    · exact List.Sublist.append g.runAdm (List.Sublist.refl _)
    · exact g.finAct
    · exact g.finNodup
    · intro u hu p hp
      simp only [liveTasks, List.mem_append, List.mem_singleton] at hu
      rcases hu with (hu | hu) | (hu | hu)
      · exact g.liveFin u (by simp [liveTasks, hrestsub u hu]) p hp
      · exact g.liveFin u (by simp [liveTasks, hu]) p hp
      · exact g.liveFin u (by simp [liveTasks, hu]) p hp
      · subst hu
        exact g.liveFin u (by simp [liveTasks, htc]) p hp
  · refine ⟨?_, ?_, ?_, ?_, ?_, ?_, ?_, ?_, ?_, ?_, ?_, ?_, ?_, ?_, ?_, ?_, ?_, ?_⟩
    · exact g.permits
    · intro _
      show s.semValue = 0
      by_cases hw : s.semWaiters = []
      · have : ¬0 < s.semValue := fun hv => hcond ⟨hv, hw⟩
        omega
      · exact g.zeroWait hw
    · exact fun u hu => g.creLt u (hrestsub u hu)
    · intro u hu
      rcases List.mem_append.mp hu with hu | hu
      · exact g.arrLt u hu
      · rw [List.mem_singleton] at hu
        subst hu
        exact htLt
    · exact g.actLt
    · exact g.finLt
    · exact sortedRest
    · exact pairwise_append_one g.sortedArr harrT
    · exact g.sortedAdm
    · exact pairwise_append_one g.sortedWait hwaitT
    · intro a ha c hc
      rcases List.mem_append.mp ha with ha | ha
      · exact g.arrCre a ha c (hrestsub c hc)
      · rw [List.mem_singleton] at ha
        subst ha
        exact htrest c hc
    · intro a ha w hw
      rcases List.mem_append.mp hw with hw | hw
      · exact g.admWait a ha w hw
      · rw [List.mem_singleton] at hw
        subst hw
        exact hadmT a ha
    · intro w hw
      rcases List.mem_append.mp hw with hw | hw
      · exact List.mem_append.mpr (Or.inl (g.waitArr w hw))
      · exact List.mem_append.mpr (Or.inr hw)
    · exact fun a ha => List.mem_append.mpr (Or.inl (g.admArr a ha))
    · exact g.runAdm
    · exact g.finAct
    · exact g.finNodup
    · intro u hu p hp
      simp only [liveTasks, List.mem_append, List.mem_singleton] at hu
      rcases hu with (hu | (hu | hu)) | hu
      · exact g.liveFin u (by simp [liveTasks, hrestsub u hu]) p hp
      · exact g.liveFin u (by simp [liveTasks, hu]) p hp
      · subst hu
        exact g.liveFin u (by simp [liveTasks, htc]) p hp
      · exact g.liveFin u (by simp [liveTasks, hu]) p hp

lemma of_mem_discard {t u : TrackedTask} {active : List TrackedTask}
    (hu : u ∈ discardTask t active) : u ∈ active ∧ u.id ≠ t.id :=
  mem_of_mem_filter_ne hu

lemma mem_discard_of {t u : TrackedTask} {active : List TrackedTask}
    (hu : u ∈ active) (hne : u.id ≠ t.id) : u ∈ discardTask t active :=
  mem_filter_ne hu hne

lemma releaseGate_nil {s : SchedState} (h : s.semWaiters = []) :
    releaseGate s = { s with semValue := s.semValue + 1 } := by
  unfold releaseGate
  rw [h]

lemma releaseGate_cons {s : SchedState} {w : TrackedTask} {ws : List TrackedTask}
    (h : s.semWaiters = w :: ws) :
    releaseGate s = { s with semWaiters := ws,
                             running := s.running ++ [w],
                             admitted := s.admitted ++ [w] } := by
  unfold releaseGate
  rw [h]

lemma mem_live_cre {s : SchedState} {u : TrackedTask}
    (hu : u ∈ s.created) : u ∈ liveTasks s :=
  List.mem_append.mpr (Or.inl (List.mem_append.mpr (Or.inl hu)))

lemma mem_live_wait {s : SchedState} {u : TrackedTask}
    (hu : u ∈ s.semWaiters) : u ∈ liveTasks s :=
  List.mem_append.mpr (Or.inl (List.mem_append.mpr (Or.inr hu)))

lemma mem_live_run {s : SchedState} {u : TrackedTask}
    (hu : u ∈ s.running) : u ∈ liveTasks s :=
  List.mem_append.mpr (Or.inr hu)

lemma good_finish {K : Nat} {s : SchedState} (g : Good K s) {t : TrackedTask}
    (ht : t ∈ s.running) (o : Outcome) : Good K (finishRunning t o s) := by
  obtain ⟨nI, cre, sv, sw, run, act, arr, adm, fin, wrn⟩ := s
  have htr : t ∈ run := ht
  have hlen : (run.filter (fun u => u.id != t.id)).length + 1 = run.length :=
    length_filter_ne g.runNe htr
  have tAdm : t ∈ adm := g.runAdm.subset htr
  have tArr : t ∈ arr := g.admArr t tAdm
  have tNotFin : ∀ p ∈ fin, t.id ≠ p.1.id := g.liveFin t (mem_live_run htr)
  have tLtNext : t.id < nI := g.arrLt t tArr
  have creGtT : ∀ c ∈ cre, t.id < c.id := fun c hc => g.arrCre t tArr c hc
  have tLtWait : ∀ x ∈ sw, t.id < x.id := fun x hx => g.admWait t tAdm x hx
  have hperm : sv + run.length = K := g.permits
  cases sw with
  | nil =>
    rw [show finishRunning t o ⟨nI, cre, sv, [], run, act, arr, adm, fin, wrn⟩
        = ⟨nI, cre, sv + 1, [], run.filter (fun u => u.id != t.id),
           discardTask t act, arr, adm, fin ++ [(t, o)],
           raise_aware_task_callback t o wrn⟩ from rfl]
    refine ⟨?_, ?_, ?_, ?_, ?_, ?_, ?_, ?_, ?_, ?_, ?_, ?_, ?_, ?_, ?_, ?_, ?_, ?_⟩
    · show sv + 1 + (run.filter (fun u => u.id != t.id)).length = K
      omega
    · exact fun hne => absurd rfl hne
    · exact g.creLt
    · exact g.arrLt
    · exact fun u hu => g.actLt u (of_mem_discard hu).1
    · intro p hp
      rcases List.mem_append.mp hp with hp | hp
      · exact g.finLt p hp
      · rw [List.mem_singleton] at hp
        subst hp
        exact tLtNext
    · exact g.sortedCre
    · exact g.sortedArr
    · exact g.sortedAdm
    · exact List.Pairwise.nil
    · exact g.arrCre
    · intro a _ x hx
      cases hx
    · intro x hx
      cases hx
    · exact g.admArr
    · exact (List.filter_sublist _).trans g.runAdm
    · intro p hp a ha
      rcases List.mem_append.mp hp with hp | hp
      · exact g.finAct p hp a (of_mem_discard ha).1
      · rw [List.mem_singleton] at hp
        subst hp
        exact (of_mem_discard ha).2
    · exact pairwise_append_one g.finNodup (fun p hp => (tNotFin p hp).symm)
    · intro u hu p hp
      simp only [liveTasks] at hu
      rcases List.mem_append.mp hu with hu | hu
      · rcases List.mem_append.mp hu with hu | hu
        · rcases List.mem_append.mp hp with hp | hp
          · exact g.liveFin u (mem_live_cre hu) p hp
          · rw [List.mem_singleton] at hp
            subst hp
            exact Nat.ne_of_gt (creGtT u hu)
        · cases hu
      · have hu' := mem_of_mem_filter_ne hu
        rcases List.mem_append.mp hp with hp | hp
        · exact g.liveFin u (mem_live_run hu'.1) p hp
        · rw [List.mem_singleton] at hp
          subst hp
          exact hu'.2
  | cons w ws =>
    have hw : w ∈ w :: ws := List.mem_cons_self _ _
    have wArr : w ∈ arr := g.waitArr w hw
    have admLtW : ∀ a ∈ adm, a.id < w.id := fun a ha => g.admWait a ha w hw
    have hpw : (∀ x ∈ ws, idLt w x) ∧ ws.Pairwise idLt :=
      List.pairwise_cons.mp g.sortedWait
    have wNotFin : ∀ p ∈ fin, w.id ≠ p.1.id := g.liveFin w (mem_live_wait hw)
    have wsSub : ∀ x ∈ ws, x ∈ w :: ws := fun x hx => List.mem_cons_of_mem _ hx
    rw [show finishRunning t o ⟨nI, cre, sv, w :: ws, run, act, arr, adm, fin, wrn⟩
        = ⟨nI, cre, sv, ws, run.filter (fun u => u.id != t.id) ++ [w],
           discardTask t act, arr, adm ++ [w], fin ++ [(t, o)],
           raise_aware_task_callback t o wrn⟩ from rfl]
    refine ⟨?_, ?_, ?_, ?_, ?_, ?_, ?_, ?_, ?_, ?_, ?_, ?_, ?_, ?_, ?_, ?_, ?_, ?_⟩
    · show sv + (run.filter (fun u => u.id != t.id) ++ [w]).length = K
      simp only [List.length_append, List.length_singleton]
      omega
    · intro _
      exact g.zeroWait (List.cons_ne_nil _ _)
    · exact g.creLt
    · exact g.arrLt
    · exact fun u hu => g.actLt u (of_mem_discard hu).1
    · intro p hp
      rcases List.mem_append.mp hp with hp | hp
      · exact g.finLt p hp
      · rw [List.mem_singleton] at hp
        subst hp
        exact tLtNext
    · exact g.sortedCre
    · exact g.sortedArr
    · exact pairwise_append_one g.sortedAdm admLtW
    · exact hpw.2
    · exact g.arrCre
    · intro a ha x hx
      rcases List.mem_append.mp ha with ha | ha
      · exact g.admWait a ha x (wsSub x hx)
      · rw [List.mem_singleton] at ha
        subst ha
        exact hpw.1 x hx
    · exact fun x hx => g.waitArr x (wsSub x hx)
    · intro a ha
      rcases List.mem_append.mp ha with ha | ha
      · exact g.admArr a ha
      · rw [List.mem_singleton] at ha
        subst ha
        exact wArr
    · exact List.Sublist.append ((List.filter_sublist _).trans g.runAdm)
        (List.Sublist.refl _)
    · intro p hp a ha
      rcases List.mem_append.mp hp with hp | hp
      · exact g.finAct p hp a (of_mem_discard ha).1
      · rw [List.mem_singleton] at hp
        subst hp
        exact (of_mem_discard ha).2
    · exact pairwise_append_one g.finNodup (fun p hp => (tNotFin p hp).symm)
    · intro u hu p hp
      simp only [liveTasks] at hu
      rcases List.mem_append.mp hu with hu | hu
      · rcases List.mem_append.mp hu with hu | hu
        · rcases List.mem_append.mp hp with hp | hp
          · exact g.liveFin u (mem_live_cre hu) p hp
          · rw [List.mem_singleton] at hp
            subst hp
            exact Nat.ne_of_gt (creGtT u hu)
        · rcases List.mem_append.mp hp with hp | hp
          · exact g.liveFin u (mem_live_wait (wsSub u hu)) p hp
          · rw [List.mem_singleton] at hp
            subst hp
            exact Nat.ne_of_gt (tLtWait u (wsSub u hu))
      · rcases List.mem_append.mp hu with hu | hu
        · have hu' := mem_of_mem_filter_ne hu
          rcases List.mem_append.mp hp with hp | hp
          · exact g.liveFin u (mem_live_run hu'.1) p hp
          · rw [List.mem_singleton] at hp
            subst hp
            exact hu'.2
        · rw [List.mem_singleton] at hu
          subst hu
          rcases List.mem_append.mp hp with hp | hp
          · exact wNotFin p hp
          · rw [List.mem_singleton] at hp
            subst hp
            exact Nat.ne_of_gt (tLtWait u hw)

lemma good_cancelW {K : Nat} {s : SchedState} (g : Good K s) {t : TrackedTask}
    (ht : t ∈ s.semWaiters) : Good K (cancelAtGate t s) := by
  obtain ⟨nI, cre, sv, sw, run, act, arr, adm, fin, wrn⟩ := s
  have htw : t ∈ sw := ht
  have tArr : t ∈ arr := g.waitArr t htw
  have tNotFin : ∀ p ∈ fin, t.id ≠ p.1.id := g.liveFin t (mem_live_wait htw)
  have tLtNext : t.id < nI := g.arrLt t tArr
  have creGtT : ∀ c ∈ cre, t.id < c.id := fun c hc => g.arrCre t tArr c hc
  have admLtT : ∀ a ∈ adm, a.id < t.id := fun a ha => g.admWait a ha t htw
  have runLtT : ∀ r ∈ run, r.id < t.id := fun r hr => admLtT r (g.runAdm.subset hr)
  rw [show cancelAtGate t ⟨nI, cre, sv, sw, run, act, arr, adm, fin, wrn⟩
      = ⟨nI, cre, sv, sw.filter (fun u => u.id != t.id), run,
         discardTask t act, arr, adm, fin ++ [(t, Outcome.cancelled)],
         raise_aware_task_callback t Outcome.cancelled wrn⟩ from rfl]
  refine ⟨?_, ?_, ?_, ?_, ?_, ?_, ?_, ?_, ?_, ?_, ?_, ?_, ?_, ?_, ?_, ?_, ?_, ?_⟩
  · exact g.permits
  · intro hne
    have hne' : sw.filter (fun u => u.id != t.id) ≠ [] := hne
    refine g.zeroWait (fun h0 => ?_)
    have h0' : sw = [] := h0
    rw [h0'] at hne'
    exact hne' rfl
  · exact g.creLt
  · exact g.arrLt
  · exact fun u hu => g.actLt u (of_mem_discard hu).1
  · intro p hp
    rcases List.mem_append.mp hp with hp | hp
    · exact g.finLt p hp
    · rw [List.mem_singleton] at hp
      subst hp
      exact tLtNext
  · exact g.sortedCre
  · exact g.sortedArr
  · exact g.sortedAdm
  · exact g.sortedWait.sublist (List.filter_sublist _)
  · exact g.arrCre
  · exact fun a ha x hx => g.admWait a ha x (mem_of_mem_filter_ne hx).1
  · exact fun x hx => g.waitArr x (mem_of_mem_filter_ne hx).1
  · exact g.admArr
  · exact g.runAdm
  · intro p hp a ha
    rcases List.mem_append.mp hp with hp | hp
    · exact g.finAct p hp a (of_mem_discard ha).1
    · rw [List.mem_singleton] at hp
      subst hp
      exact (of_mem_discard ha).2
  · exact pairwise_append_one g.finNodup (fun p hp => (tNotFin p hp).symm)
  · intro u hu p hp
    simp only [liveTasks] at hu
    rcases List.mem_append.mp hu with hu | hu
    · rcases List.mem_append.mp hu with hu | hu
      · rcases List.mem_append.mp hp with hp | hp
        · exact g.liveFin u (mem_live_cre hu) p hp
        · rw [List.mem_singleton] at hp
          subst hp
          exact Nat.ne_of_gt (creGtT u hu)
      · have hu' := mem_of_mem_filter_ne hu
        rcases List.mem_append.mp hp with hp | hp
        · exact g.liveFin u (mem_live_wait hu'.1) p hp
        · rw [List.mem_singleton] at hp
          subst hp
          exact hu'.2
    · rcases List.mem_append.mp hp with hp | hp
      · exact g.liveFin u (mem_live_run hu) p hp
      · rw [List.mem_singleton] at hp
        subst hp
        exact Nat.ne_of_lt (runLtT u hu)

lemma good_step {K : Nat} {s s' : SchedState} (g : Good K s) (h : Step s s') :
    Good K s' := by
  cases h with
  | submit name _ => exact good_submit g name
  | start _ t rest h => exact good_start g h
  | finish _ t o h => exact good_finish g h o
  | cancelWaiting _ t h => exact good_cancelW g h

lemma reachable_good {K : Nat} {s : SchedState} (h : Reachable K s) : Good K s := by
  induction h with
  | init => exact good_init K
  | step _ hstep ih => exact good_step ih hstep

/-! ## Component lemmas used by the claim theorems -/

lemma finishRunning_active (t : TrackedTask) (o : Outcome) (s : SchedState) :
    (finishRunning t o s).active = discardTask t s.active := by
  obtain ⟨nI, cre, sv, sw, run, act, arr, adm, fin, wrn⟩ := s
  cases sw <;> rfl

lemma finishRunning_warnings (t : TrackedTask) (o : Outcome) (s : SchedState) :
    (finishRunning t o s).warnings = raise_aware_task_callback t o s.warnings := by
  obtain ⟨nI, cre, sv, sw, run, act, arr, adm, fin, wrn⟩ := s
  cases sw <;> rfl

lemma finishRunning_finished (t : TrackedTask) (o : Outcome) (s : SchedState) :
    (finishRunning t o s).finished = s.finished ++ [(t, o)] := by
  obtain ⟨nI, cre, sv, sw, run, act, arr, adm, fin, wrn⟩ := s
  cases sw <;> rfl

/-! ## Claim theorems -/

/-- C1: in every reachable state of the event loop at capacity `K`, at most
`K` task bodies are executing simultaneously, and every executing body has
been admitted past the Admission Gate — a body runs only while holding one
of the semaphore's `K` permits. -/
theorem C1_at_most_K_bodies_running {K : Nat} {s : SchedState}
    (h : Reachable K s) :
    s.running.length ≤ K ∧ ∀ t ∈ s.running, t ∈ s.admitted := by
  have g := reachable_good h
  have hp := g.permits
  exact ⟨by omega, fun t ht => g.runAdm.subset ht⟩

/-- Witness for C1: capacity `MAX_BACKGROUND_TASKS` with one submitted and
started task. -/
theorem C1_at_most_K_bodies_running_witness :
    (startCreated ⟨0, "a"⟩ []
        (run_background_task "a" (initState MAX_BACKGROUND_TASKS))).running.length
        ≤ MAX_BACKGROUND_TASKS
    ∧ ∀ t ∈ (startCreated ⟨0, "a"⟩ []
          (run_background_task "a" (initState MAX_BACKGROUND_TASKS))).running,
        t ∈ (startCreated ⟨0, "a"⟩ []
          (run_background_task "a" (initState MAX_BACKGROUND_TASKS))).admitted :=
  C1_at_most_K_bodies_running
    (Reachable.step (Reachable.step Reachable.init (Step.submit "a" _))
      (Step.start _ ⟨0, "a"⟩ [] rfl))

/-- C2: task bodies reach the Admission Gate in submission order (task
identities are assigned consecutively by `run_background_task`, and the
arrival history is strictly increasing in identity), and bodies start
executing — pass the gate — in submission order as well, at every capacity;
with capacity 1 this is exactly FIFO execution of the bodies in submission
order. -/
theorem C2_fifo_admission {K : Nat} {s : SchedState} (h : Reachable K s) :
    s.arrived.Pairwise idLt ∧ s.admitted.Pairwise idLt := by
  have g := reachable_good h
  exact ⟨g.sortedArr, g.sortedAdm⟩

/-- Witness for C2: two submissions at capacity `MAX_BACKGROUND_TASKS = 1`;
the first body is admitted, the second queues behind the gate. -/
theorem C2_fifo_admission_witness :
    (startCreated ⟨1, "b"⟩ []
        (startCreated ⟨0, "a"⟩ [⟨1, "b"⟩]
          (run_background_task "b"
            (run_background_task "a"
              (initState MAX_BACKGROUND_TASKS))))).arrived.Pairwise idLt
    ∧ (startCreated ⟨1, "b"⟩ []
        (startCreated ⟨0, "a"⟩ [⟨1, "b"⟩]
          (run_background_task "b"
            (run_background_task "a"
              (initState MAX_BACKGROUND_TASKS))))).admitted.Pairwise idLt :=
  C2_fifo_admission
    (Reachable.step
      (Reachable.step
        (Reachable.step (Reachable.step Reachable.init (Step.submit "a" _))
          (Step.submit "b" _))
        (Step.start _ ⟨0, "a"⟩ [⟨1, "b"⟩] rfl))
      (Step.start _ ⟨1, "b"⟩ [] rfl))

/-- C3: a work body's terminal outcome never propagates out of the
scheduler: the completion transition only appends to the warning log —
nothing for a normal return, a warning naming the task for an exception or a
cancellation (cancellation is a reported outcome, not success, because the
callback catches `BaseException` including `CancelledError`) — and the
scheduler keeps accepting submissions afterwards; `run_background_task`
always hands its caller a successor state, never an error. -/
theorem C3_errors_contained (t : TrackedTask) (o : Outcome) (s : SchedState) :
    ((finishRunning t o s).warnings
        = s.warnings ++ (if o = Outcome.ok then [] else [(t.name, o)]))
    ∧ ((cancelAtGate t s).warnings
        = s.warnings ++ [(t.name, Outcome.cancelled)])
    ∧ (∀ name, Step s (run_background_task name s))
    ∧ (∀ name, Step (finishRunning t o s)
        (run_background_task name (finishRunning t o s))) := by
  refine ⟨?_, rfl, fun name => Step.submit name s, fun name => Step.submit name _⟩
  rw [finishRunning_warnings]
  cases o <;> simp [raise_aware_task_callback]

/-- C4: evaluation at a failing input.  The snapshot holds one matched task
whose body raises `ValueError` one second into the wait, well within the
5-second budget; `wait_for_task` re-raises the task's exception to its
caller — an error other than Timeout — because awaiting a task that failed
propagates the task's exception through `asyncio.wait_for`.  This
contradicts the claim and the function's own docstring ("If the task
finishes before `TASK_TIMEOUT_SECONDS`, nothing happens"). -/
theorem C4_work_failure_reraised :
    wait_for_task "job" 5 [⟨⟨0, "job"⟩, some 1, Outcome.err "ValueError"⟩] 0
      = (1, Except.error (WaitError.taskErr "ValueError"), [])
    ∧ WaitError.taskErr "ValueError" ≠ WaitError.timeout := by
  exact ⟨rfl, by decide⟩

/-- C5 counterexample: the claim says a timed-out `wait_for_task` does not
cancel the underlying task.  Evaluated on one matched task still running
when the 3-second budget expires, the wait raises Timeout and the set of
tasks cancelled by the wait is exactly that task — `asyncio.wait_for`
cancels the awaited task on timeout — refuting the claim as stated. -/
theorem C5_counterexample_timeout_cancels :
    (wait_for_task "job" 3 [⟨⟨0, "job"⟩, none, Outcome.ok⟩] 0).2.2
        = [⟨0, "job"⟩]
    ∧ (wait_for_task "job" 3 [⟨⟨0, "job"⟩, none, Outcome.ok⟩] 0).2.1
        = Except.error WaitError.timeout
    ∧ (wait_for_task "job" 3 [⟨⟨0, "job"⟩, none, Outcome.ok⟩] 0).2.2 ≠ [] := by
  exact ⟨rfl, rfl, by decide⟩

/-- C5 amended: when `wait_for_task` times out on a matched task (the task
is not terminal within `seconds` of that task's wait starting), it raises
Timeout and cancels that task; the cancelled task still reaches the
cancelled terminal state, is recorded in the completion history, and its
completion callback still removes it from the Task Set — whether it is
cancelled while executing or while waiting at the gate. -/
theorem C5_amended_timeout_cancels_task (name : String) (seconds now : Nat)
    (v : TaskView) (hname : v.task.name = name)
    (hlate : ∀ d, v.doneAt = some d → now + seconds < d) :
    wait_for_task name seconds [v] now
      = (now + seconds, Except.error WaitError.timeout, [v.task])
    ∧ (∀ s : SchedState,
        (∀ u ∈ (finishRunning v.task Outcome.cancelled s).active,
            u.id ≠ v.task.id)
        ∧ (v.task, Outcome.cancelled)
            ∈ (finishRunning v.task Outcome.cancelled s).finished)
    ∧ (∀ s : SchedState,
        (∀ u ∈ (cancelAtGate v.task s).active, u.id ≠ v.task.id)
        ∧ (v.task, Outcome.cancelled) ∈ (cancelAtGate v.task s).finished) := by
  refine ⟨?_, ?_, ?_⟩
  · have ew : asyncio_wait_for now seconds v
        = (now + seconds, Except.error WaitError.timeout, [v.task]) := by
      obtain ⟨vt, vd, vr⟩ := v
      cases vd with
      | none => rfl
      | some d =>
        have hlt := hlate d rfl
        simp only [asyncio_wait_for]
        rw [if_neg (by omega)]
    unfold wait_for_task
    rw [if_pos hname, ew]
  · intro s
    constructor
    · intro u hu
      rw [finishRunning_active] at hu
      exact (of_mem_discard hu).2
    · rw [finishRunning_finished]
      exact List.mem_append.mpr (Or.inr (List.mem_singleton.mpr rfl))
  · intro s
    exact ⟨fun u hu => (of_mem_discard hu).2,
      List.mem_append.mpr (Or.inr (List.mem_singleton.mpr rfl))⟩

/-- Witness for the amended C5 at a concrete input. -/
theorem C5_amended_timeout_cancels_task_witness :
    wait_for_task "job" 3 [⟨⟨0, "job"⟩, none, Outcome.ok⟩] 0
      = (0 + 3, Except.error WaitError.timeout, [⟨0, "job"⟩]) :=
  (C5_amended_timeout_cancels_task "job" 3 0 ⟨⟨0, "job"⟩, none, Outcome.ok⟩
    rfl (fun _ hd => Option.noConfusion hd)).1

/-- C6: in every reachable state, a task that has reached a terminal state
(any outcome) is absent from the registry and from every lookup of its
name, and the completion history holds each task at most once — the task is
removed exactly once, at its terminal transition. -/
theorem C6_terminal_tasks_unregistered {K : Nat} {s : SchedState}
    (h : Reachable K s) :
    (∀ p ∈ s.finished, ∀ u ∈ s.active, u.id ≠ p.1.id)
    ∧ (∀ p ∈ s.finished, ∀ u ∈ find_by_name p.1.name s.active, u.id ≠ p.1.id)
    ∧ s.finished.Pairwise (fun p q => p.1.id ≠ q.1.id) := by
  have g := reachable_good h
  refine ⟨g.finAct, ?_, g.finNodup⟩
  intro p hp u hu
  exact g.finAct p hp u (List.mem_filter.mp hu).1

/-- Witness for C6: one task submitted, started, and finished normally; its
completion history is duplicate-free. -/
theorem C6_terminal_tasks_unregistered_witness :
    (finishRunning ⟨0, "a"⟩ Outcome.ok
        (startCreated ⟨0, "a"⟩ []
          (run_background_task "a" (initState MAX_BACKGROUND_TASKS)))).finished.Pairwise
      (fun p q => p.1.id ≠ q.1.id) :=
  (C6_terminal_tasks_unregistered
    (Reachable.step
      (Reachable.step (Reachable.step Reachable.init (Step.submit "a" _))
        (Step.start _ ⟨0, "a"⟩ [] rfl))
      (Step.finish _ ⟨0, "a"⟩ Outcome.ok (List.mem_singleton.mpr rfl)))).2.2

/-- C7: `wait_for_task` waits on the matched tasks sequentially, giving each
matched task its own fresh budget of `seconds` starting when that task's
wait begins — two matched tasks finishing at `now + seconds` and
`now + seconds + seconds` both succeed, even though the total elapsed time
exceeds a single shared deadline of `seconds` — and a snapshot with zero
matching tasks returns immediately (clock unchanged), with no error and no
cancellation. -/
theorem C7_per_task_budget_and_empty_match (name : String) (seconds now : Nat) :
    (∀ snapshot : List TaskView, (∀ v ∈ snapshot, v.task.name ≠ name) →
        wait_for_task name seconds snapshot now = (now, Except.ok (), []))
    ∧ (∀ t1 t2 : TrackedTask, t1.name = name → t2.name = name →
        wait_for_task name seconds
          [⟨t1, some (now + seconds), Outcome.ok⟩,
           ⟨t2, some (now + seconds + seconds), Outcome.ok⟩] now
          = (now + seconds + seconds, Except.ok (), [])) := by
  constructor
  · intro snapshot hn
    induction snapshot with
    | nil => rfl
    | cons v vs ih =>
      unfold wait_for_task
      rw [if_neg (hn v (List.mem_cons_self _ _))]
      exact ih (fun u hu => hn u (List.mem_cons_of_mem _ hu))
  · intro t1 t2 h1 h2
    have e1 : asyncio_wait_for now seconds ⟨t1, some (now + seconds), Outcome.ok⟩
        = (now + seconds, Except.ok (), []) := by
      simp only [asyncio_wait_for]
      rw [if_pos (Nat.le_refl _), max_eq_right (Nat.le_add_right now seconds)]
    have e2 : asyncio_wait_for (now + seconds) seconds
          ⟨t2, some (now + seconds + seconds), Outcome.ok⟩
        = (now + seconds + seconds, Except.ok (), []) := by
      simp only [asyncio_wait_for]
      rw [if_pos (Nat.le_refl _), max_eq_right (Nat.le_add_right _ _)]
    have e3 : wait_for_task name seconds
          [⟨t2, some (now + seconds + seconds), Outcome.ok⟩] (now + seconds)
        = (now + seconds + seconds, Except.ok (), []) := by
      unfold wait_for_task
      rw [if_pos h2, e2]
      rfl
    unfold wait_for_task
    rw [if_pos h1, e1]
    simp only []
    rw [e3]
    rfl

/-- Witness for C7: an unmatched snapshot returns immediately at clock 7,
and two matched tasks taking 4 seconds each succeed with budget 4. -/
theorem C7_per_task_budget_and_empty_match_witness :
    wait_for_task "job" 4 [⟨⟨0, "other"⟩, some 1, Outcome.err "E"⟩] 7
      = (7, Except.ok (), [])
    ∧ wait_for_task "job" 4
        [⟨⟨0, "job"⟩, some (0 + 4), Outcome.ok⟩,
         ⟨⟨1, "job"⟩, some (0 + 4 + 4), Outcome.ok⟩] 0
      = (0 + 4 + 4, Except.ok (), []) :=
  ⟨(C7_per_task_budget_and_empty_match "job" 4 7).1
      [⟨⟨0, "other"⟩, some 1, Outcome.err "E"⟩] (by decide),
   (C7_per_task_budget_and_empty_match "job" 4 0).2
      ⟨0, "job"⟩ ⟨1, "job"⟩ rfl rfl⟩

/-- C8: permit accounting: in every reachable state the free permits plus
the bodies holding one sum to the capacity — no permit is ever leaked or
duplicated on any path — and every terminal outcome of a running body
(normal return, exception, cancellation) restores the accounting in the
successor state, because the scoped acquisition releases on every exit
path. -/
theorem C8_no_permit_leak {K : Nat} {s : SchedState} (h : Reachable K s) :
    s.semValue + s.running.length = K
    ∧ ∀ t ∈ s.running, ∀ o : Outcome,
        (finishRunning t o s).semValue
          + (finishRunning t o s).running.length = K := by
  have g := reachable_good h
  exact ⟨g.permits, fun t ht o => (good_finish g ht o).permits⟩

/-- Witness for C8: capacity `MAX_BACKGROUND_TASKS` with one admitted body. -/
theorem C8_no_permit_leak_witness :
    (startCreated ⟨0, "a"⟩ []
        (run_background_task "a" (initState MAX_BACKGROUND_TASKS))).semValue
      + (startCreated ⟨0, "a"⟩ []
        (run_background_task "a" (initState MAX_BACKGROUND_TASKS))).running.length
      = MAX_BACKGROUND_TASKS :=
  (C8_no_permit_leak
    (Reachable.step (Reachable.step Reachable.init (Step.submit "a" _))
      (Step.start _ ⟨0, "a"⟩ [] rfl))).1

/-- C9: completion removes only the completed task object from the registry
(removal is keyed by task identity, not by name): the post-registry is
exactly the identity-keyed discard, every surviving entry is a different
task, every other registered task survives, and any other task found under
a name — including the same name as the completed task — is still found by
that lookup afterwards. -/
theorem C9_removal_is_identity_keyed (t : TrackedTask) (o : Outcome)
    (s : SchedState) :
    ((finishRunning t o s).active = discardTask t s.active)
    ∧ (∀ u ∈ (finishRunning t o s).active, u ∈ s.active ∧ u.id ≠ t.id)
    ∧ (∀ u ∈ s.active, u.id ≠ t.id → u ∈ (finishRunning t o s).active)
    ∧ (∀ nm u, u ∈ find_by_name nm s.active → u.id ≠ t.id →
        u ∈ find_by_name nm (finishRunning t o s).active) := by
  refine ⟨finishRunning_active t o s, ?_, ?_, ?_⟩
  · intro u hu
    rw [finishRunning_active] at hu
    exact of_mem_discard hu
  · intro u hu hne
    rw [finishRunning_active]
    exact mem_discard_of hu hne
  · intro nm u hu hne
    rw [finishRunning_active]
    have hm := List.mem_filter.mp hu
    exact List.mem_filter.mpr ⟨mem_discard_of hm.1 hne, hm.2⟩

/-- Witness for C9: two in-flight tasks share the name "n"; after the first
completes with an error, the second is still found by the name lookup. -/
theorem C9_removal_is_identity_keyed_witness :
    ⟨1, "n"⟩ ∈ find_by_name "n"
      (finishRunning ⟨0, "n"⟩ (Outcome.err "E")
        ⟨2, [], 0, [], [⟨0, "n"⟩], [⟨0, "n"⟩, ⟨1, "n"⟩],
         [⟨0, "n"⟩], [⟨0, "n"⟩], [], []⟩).active :=
  (C9_removal_is_identity_keyed ⟨0, "n"⟩ (Outcome.err "E")
      ⟨2, [], 0, [], [⟨0, "n"⟩], [⟨0, "n"⟩, ⟨1, "n"⟩],
       [⟨0, "n"⟩], [⟨0, "n"⟩], [], []⟩).2.2.2
    "n" ⟨1, "n"⟩ (by decide) (by decide)

/-- C10: the two completion handlers run in registration order: the
registry discard is applied first and the outcome reporter runs on the
already-discarded registry, so at the moment the warning describing a
failure or cancellation is appended, the task is no longer in the Task
Set — on both completion paths (running body and gate waiter). -/
theorem C10_discard_before_report (t : TrackedTask) (o : Outcome)
    (s : SchedState) :
    (runDoneCallbacks t o s
        = { s with active := discardTask t s.active,
                   warnings := raise_aware_task_callback t o
                     ({ s with active := discardTask t s.active }).warnings })
    ∧ (∀ u ∈ ({ s with active := discardTask t s.active }).active, u.id ≠ t.id)
    ∧ (∀ u ∈ (finishRunning t o s).active, u.id ≠ t.id)
    ∧ (∀ u ∈ (cancelAtGate t s).active, u.id ≠ t.id) := by
  refine ⟨rfl, ?_, ?_, ?_⟩
  · exact fun u hu => (of_mem_discard hu).2
  · intro u hu
    rw [finishRunning_active] at hu
    exact (of_mem_discard hu).2
  · exact fun u hu => (of_mem_discard hu).2

/-- Witness for C3: a body failing with an exception adds exactly one
warning naming the task. -/
theorem C3_errors_contained_witness :
    (finishRunning ⟨0, "a"⟩ (Outcome.err "E")
        ⟨1, [], 0, [], [⟨0, "a"⟩], [⟨0, "a"⟩], [⟨0, "a"⟩], [⟨0, "a"⟩], [], []⟩).warnings
      = [("a", Outcome.err "E")] :=
  (C3_errors_contained ⟨0, "a"⟩ (Outcome.err "E")
    ⟨1, [], 0, [], [⟨0, "a"⟩], [⟨0, "a"⟩], [⟨0, "a"⟩], [⟨0, "a"⟩], [], []⟩).1

/-- Witness for C10: the completed task is discarded from the registry
before the cancellation warning is appended. -/
theorem C10_discard_before_report_witness :
    runDoneCallbacks ⟨0, "n"⟩ Outcome.cancelled
        ⟨1, [], 0, [], [], [⟨0, "n"⟩], [], [], [], []⟩
      = ⟨1, [], 0, [], [], [], [], [], [], [("n", Outcome.cancelled)]⟩ :=
  (C10_discard_before_report ⟨0, "n"⟩ Outcome.cancelled
    ⟨1, [], 0, [], [], [⟨0, "n"⟩], [], [], [], []⟩).1
